import Mathlib

/-!
Verification of the Morse code converter (`Morse Code Converter/app.py`).

The Python program is shallowly embedded:

* a file handed to `readlines()` is modelled as a `List String` of raw
  lines (each line keeps its trailing newline, as `readlines` does);
* the dictionary built by `load_char` is modelled as an insertion-ordered
  association list with unique keys (`Dict`), with `dictInsert` mirroring
  dictionary assignment (overwrite in place, append when fresh) and
  `dictLookup` mirroring key membership and subscript access;
* a Python `IndexError` (from `line.split(" ")[1]` on a line without a
  space) is modelled by `parseLine` returning `none`, which `load_char`
  propagates as `Except.error ()`;
* console interaction is modelled by a list of the strings the user will
  enter; every `input()` call consumes the head of that list, and printed
  lines are collected in order.  Exhausting the list is an artifact of
  modelling an infinite interactive session by a finite one and is
  reported as `PyError.eof`.
-/

namespace Morse

/-- Python `str.split(" ")` on a list of characters: split at every
single space, keeping empty fields (so the result is never empty). -/
def pySplitCh : List Char → List (List Char)
  | [] => [[]]
  | c :: rest =>
    if c = ' ' then [] :: pySplitCh rest
    else
      match pySplitCh rest with
      | [] => [[c]]
      | f :: fs => (c :: f) :: fs

/-- Python `line.split(" ")` for strings. -/
def pySplit (s : String) : List String :=
  (pySplitCh s.data).map String.mk

/-- Python `str.strip("\n")`: remove newline characters from both ends. -/
def pyStripNL (s : String) : String :=
  ⟨((s.data.dropWhile (· = '\n')).reverse.dropWhile (· = '\n')).reverse⟩

/-- The first space-separated field of a line: `line.split(" ")[0]`. -/
def firstField (line : String) : String :=
  (pySplit line).headI

/-- One step of the dictionary comprehension in `load_char`: evaluate
`line.split(" ")[0]` and `line.split(" ")[1].strip("\n")`.  Returns
`none` when index 1 is out of range, which in Python raises
`IndexError`. -/
def parseLine (line : String) : Option (String × String) :=
  match (pySplit line)[1]? with
  | none => none
  | some v => some (firstField line, pyStripNL v)

/-- The in-memory mapping: an insertion-ordered association list. -/
abbrev Dict := List (String × String)

/-- Replace the binding for `k` by `(k, v)` and leave every other
binding alone. -/
def overwriteEntry (k v : String) : String × String → String × String
  | (k₁, v₁) => if k₁ = k then (k, v) else (k₁, v₁)

/-- Python dictionary assignment `d[k] = v`: overwrite the value of an
existing key in place, otherwise append the new binding. -/
def dictInsert (d : Dict) (k v : String) : Dict :=
  if d.any (fun p => p.1 = k) then d.map (overwriteEntry k v)
  else d ++ [(k, v)]

/-- Python `k in d` / `d[k]` combined: the value bound to `k`, if any. -/
def dictLookup (d : Dict) (k : String) : Option String :=
  match d with
  | [] => none
  | (k₁, v) :: rest => if k₁ = k then some v else dictLookup rest k

/-- One step of the dictionary comprehension of `load_char` over the
lines: once a line has raised, the run stays aborted; otherwise parse
the line and assign its key. -/
def loadStep (acc : Except Unit Dict) (line : String) : Except Unit Dict :=
  match acc with
  | .error e => .error e
  | .ok d =>
    match parseLine line with
    | none => .error ()
    | some (k, v) => .ok (dictInsert d k v)

/-- `load_char` from `app.py`, applied to the `readlines()` view of the
resource file: build the dictionary line by line; a line on which
`split(" ")[1]` is out of range aborts the whole comprehension with an
`IndexError`, modelled as `Except.error ()`. -/
def load_char (lines : List String) : Except Unit Dict :=
  lines.foldl loadStep (.ok [])

/-- The dictionary built from the lines that parse, ignoring the ones
that do not; on a file where every line parses this is the dictionary
`load_char` returns. -/
def buildDict (d : Dict) : List String → Dict
  | [] => d
  | l :: ls =>
    match parseLine l with
    | none => buildDict d ls
    | some (k, v) => buildDict (dictInsert d k v) ls

/-- The keys of the mapping, in insertion order. -/
def keys (d : Dict) : List String := d.map Prod.fst

/-- Whether a line contains at least one space character. -/
def containsSpace (s : String) : Bool := s.data.any (· = ' ')

/-- The body of the character-processing loop of `main`: if the
character is a key of the chart, append its code and one space,
otherwise leave the accumulator unchanged. -/
def transFold (chart : Dict) (acc : String) (c : Char) : String :=
  match dictLookup chart (String.mk [c]) with
  | some code => acc ++ code ++ " "
  | none => acc

/-- The character-processing loop of `main`, folded over the characters
of the input in left-to-right order. -/
def translate (s : String) (chart : Dict) : String :=
  s.data.foldl (transFold chart) ""

/-- What one character contributes to the output according to the
specification: its code followed by exactly one space when it is a key
of the chart, nothing otherwise. -/
def tokenOf (chart : Dict) (c : Char) : String :=
  match dictLookup chart (String.mk [c]) with
  | some code => code ++ " "
  | none => ""

/-- The translation as the specification words it: the left-to-right
concatenation, over the characters of the input, of the per-character
contributions. -/
def translateSpec (s : String) (chart : Dict) : String :=
  String.join (s.data.map (tokenOf chart))

/-- The character-processing loop again, but with the chart threaded
through the state explicitly, to express that the loop body never
touches the chart. -/
def translateStep (st : String × Dict) (c : Char) : String × Dict :=
  match dictLookup st.2 (String.mk [c]) with
  | some code => (st.1 ++ code ++ " ", st.2)
  | none => st

/-- The characters strictly after the first space of a line, when the
line has a space at all. -/
def restAfterFirstSpace : List Char → Option (List Char)
  | [] => none
  | c :: rest => if c = ' ' then some rest else restAfterFirstSpace rest

/-- Drop the trailing newline characters of a line. -/
def dropTrailingNL (cs : List Char) : List Char :=
  (cs.reverse.dropWhile (· = '\n')).reverse

/-- The value of a record as the claim words it: all remaining
characters of the line after the first space, up to and excluding the
trailing newline.  Written from the words of the specification, to be
compared against what `load_char` actually stores. -/
def claimedValue (line : String) : Option String :=
  (restAfterFirstSpace line.data).map fun r => String.mk (dropTrailingNL r)

/-- The value `load_char` actually stores, characterized without
`pySplit`: the characters strictly between the first space and the
following space or end of line, with newline characters stripped from
both ends. -/
def secondFieldAlt (line : String) : Option String :=
  (restAfterFirstSpace line.data).map fun r => pyStripNL (String.mk (r.takeWhile (· ≠ ' ')))

/-- The ways the embedded program can stop abnormally: the resource file
cannot be opened (`resource`), a resource line has no space so
`split(" ")[1]` raises (`indexErr`), or the modelled list of user
entries runs out (`eof`, an artifact of modelling the session by a
finite list of entries). -/
inductive PyError
  | resource
  | indexErr
  | eof
deriving DecidableEq, Repr

/-- The observable outcome of a run: the lines printed, in order, and
the error the run ended with, if any. -/
structure RunResult where
  outputs : List String
  error : Option PyError
deriving DecidableEq, Repr

/-- Prefix some already-printed lines onto a run outcome. -/
def prependOut (os : List String) (r : RunResult) : RunResult :=
  ⟨os ++ r.outputs, r.error⟩

/-- Python `str.lower()`: lowercase the string character by character. -/
def pyLower (s : String) : String := ⟨s.data.map Char.toLower⟩

/-- `get_input` from `app.py`: prompt, read one entry, lowercase it;
an empty entry prints a guidance line and re-prompts.  Returns the lines
printed together with the accepted text and the entries left, or `none`
when the entries run out. -/
def get_input : List String → List String × Option (String × List String)
  | [] => (["Please enter the text to convert:"], none)
  | i :: rest =>
    if pyLower i = "" then
      let (os, r) := get_input rest
      ("Please enter the text to convert:" :: "Please enter some text." :: os, r)
    else
      (["Please enter the text to convert:"], some (pyLower i, rest))

/-- The report printed after translating: the encoded text when it is
non-empty, otherwise the no-convertible-character notice. -/
def reportMsg (conv : String) : String :=
  if conv.length > 0 then "Your input in morse code: " ++ conv
  else "The input did not contain any convertible character."

/-- The lines printed by one loop iteration up to and including the
continue prompt, given the printed lines of `get_input` and the
accepted input text. -/
def iterOut (os : List String) (t : String) (chart : Dict) : List String :=
  os ++ [reportMsg (translate t chart), "Do you want to convert something else? (y/n)"]

/-- The `while True` loop of `main`: get a non-empty input, translate
it, report, then ask whether to continue; the answer `"n"` (after
lowercasing) breaks the loop, anything else repeats.  The `fuel`
argument only bounds the modelled session length; running out of fuel
is reported as `eof` like running out of entries. -/
def mainLoop (chart : Dict) : Nat → List String → RunResult
  | 0, _ => ⟨[], some .eof⟩
  | fuel + 1, inputs =>
    match get_input inputs with
    | (os, none) => ⟨os, some .eof⟩
    | (os, some (t, rest)) =>
      match rest with
      | [] => ⟨iterOut os t chart, some .eof⟩
      | a :: rest₂ =>
        if pyLower a = "n" then ⟨iterOut os t chart, none⟩
        else prependOut (iterOut os t chart) (mainLoop chart fuel rest₂)

/-- `main` from `app.py`.  The resource file is `none` when it does not
exist or cannot be read, otherwise `some` of its `readlines()` view;
`inputs` is the list of strings the user will enter.  The welcome line
is printed only after a successful load, and the farewell line only
after a normal exit from the loop. -/
def mainRun (file : Option (List String)) (inputs : List String) : RunResult :=
  match file with
  | none => ⟨[], some .resource⟩
  | some lines =>
    match load_char lines with
    | .error _ => ⟨[], some .indexErr⟩
    | .ok chart =>
      let r := mainLoop chart (inputs.length + 1) inputs
      match r.error with
      | none => ⟨"Welcome to the Morse code converter.\n" :: r.outputs ++ ["Goodbye."], none⟩
      | some e => ⟨"Welcome to the Morse code converter.\n" :: r.outputs, some e⟩

/-! Helper lemmas about the dictionary operations. -/

theorem overwriteEntry_eq (k v k₁ v₁ : String) :
    overwriteEntry k v (k₁, v₁) = if k₁ = k then (k, v) else (k₁, v₁) := rfl

theorem dictLookup_map_ne (d : Dict) (k v q : String) (h : q ≠ k) :
    dictLookup (d.map (overwriteEntry k v)) q = dictLookup d q := by
  induction d with
  | nil => rfl
  | cons p rest ih =>
    obtain ⟨k₁, v₁⟩ := p
    by_cases h₁ : k₁ = k
    · subst h₁
      have hne : ¬(k₁ = q) := fun hk => h hk.symm
      rw [List.map_cons, overwriteEntry_eq, if_pos rfl]
      simp [dictLookup, hne, ih]
    · rw [List.map_cons, overwriteEntry_eq, if_neg h₁]
      simp [dictLookup, ih]

theorem dictLookup_map_self (d : Dict) (k v : String)
    (h : d.any (fun p => p.1 = k) = true) :
    dictLookup (d.map (overwriteEntry k v)) k = some v := by
  induction d with
  | nil => simp at h
  | cons p rest ih =>
    obtain ⟨k₁, v₁⟩ := p
    by_cases h₁ : k₁ = k
    · subst h₁
      rw [List.map_cons, overwriteEntry_eq, if_pos rfl]
      simp [dictLookup]
    · simp only [List.any_cons, Bool.or_eq_true, decide_eq_true_eq] at h
      rcases h with h | h
      · exact absurd h h₁
      · rw [List.map_cons, overwriteEntry_eq, if_neg h₁]
        simp [dictLookup, h₁, ih h]

theorem dictLookup_eq_none_of_not_any (d : Dict) (k : String)
    (h : ¬ d.any (fun p => p.1 = k) = true) :
    dictLookup d k = none := by
  induction d with
  | nil => rfl
  | cons p rest ih =>
    obtain ⟨k₁, v₁⟩ := p
    simp only [List.any_cons, Bool.or_eq_true, decide_eq_true_eq, not_or] at h
    simp only [dictLookup, if_neg h.1]
    exact ih (by simpa using h.2)

theorem dictLookup_append (d₁ d₂ : Dict) (k : String) :
    dictLookup (d₁ ++ d₂) k = (dictLookup d₁ k).or (dictLookup d₂ k) := by
  induction d₁ with
  | nil => rfl
  | cons p rest ih =>
    obtain ⟨k₁, v₁⟩ := p
    by_cases h₁ : k₁ = k
    · simp [dictLookup, if_pos h₁]
    · simp [dictLookup, if_neg h₁, ih]

theorem dictLookup_insert (d : Dict) (k v q : String) :
    dictLookup (dictInsert d k v) q = if k = q then some v else dictLookup d q := by
  unfold dictInsert
  by_cases hmem : d.any (fun p => p.1 = k) = true
  · rw [if_pos hmem]
    by_cases hq : k = q
    · subst hq
      rw [if_pos rfl, dictLookup_map_self d k v hmem]
    · rw [if_neg hq, dictLookup_map_ne d k v q (fun h => hq h.symm)]
  · rw [if_neg hmem, dictLookup_append]
    by_cases hq : k = q
    · subst hq
      rw [dictLookup_eq_none_of_not_any d k hmem]
      simp [dictLookup]
    · simp only [dictLookup, if_neg hq]
      exact Option.or_none

/-! Helper lemmas about the splitting of a line. -/

theorem pySplitCh_ne_nil (cs : List Char) : pySplitCh cs ≠ [] := by
  induction cs with
  | nil => simp [pySplitCh]
  | cons c rest ih =>
    by_cases hc : c = ' '
    · simp [pySplitCh, hc]
    · simp only [pySplitCh, if_neg hc]
      cases hr : pySplitCh rest with
      | nil => exact absurd hr ih
      | cons f fs => simp

theorem pySplitCh_headI (cs : List Char) :
    (pySplitCh cs).headI = cs.takeWhile (· ≠ ' ') := by
  induction cs with
  | nil => rfl
  | cons c rest ih =>
    by_cases hc : c = ' '
    · subst hc
      simp [pySplitCh, List.takeWhile_cons]
    · simp only [pySplitCh, if_neg hc]
      cases hr : pySplitCh rest with
      | nil => exact absurd hr (pySplitCh_ne_nil rest)
      | cons f fs =>
        rw [hr] at ih
        simp only [List.headI] at ih ⊢
        simp [List.takeWhile_cons, hc, ih]

theorem pySplitCh_second (cs : List Char) :
    (pySplitCh cs)[1]? = (restAfterFirstSpace cs).map (·.takeWhile (· ≠ ' ')) := by
  induction cs with
  | nil => rfl
  | cons c rest ih =>
    by_cases hc : c = ' '
    · subst hc
      simp only [pySplitCh, if_pos rfl, restAfterFirstSpace, Option.map_some]
      cases hr : pySplitCh rest with
      | nil => exact absurd hr (pySplitCh_ne_nil rest)
      | cons f fs =>
        have := pySplitCh_headI rest
        rw [hr] at this
        simp only [List.headI] at this
        simp [this]
    · simp only [pySplitCh, if_neg hc, restAfterFirstSpace]
      cases hr : pySplitCh rest with
      | nil => exact absurd hr (pySplitCh_ne_nil rest)
      | cons f fs =>
        rw [hr] at ih
        simpa using ih

theorem restAfterFirstSpace_isSome (cs : List Char) :
    (restAfterFirstSpace cs).isSome = cs.any (· = ' ') := by
  induction cs with
  | nil => rfl
  | cons c rest ih =>
    by_cases hc : c = ' '
    · subst hc
      simp [restAfterFirstSpace]
    · simp [restAfterFirstSpace, hc, ih]

/-! Helper lemmas about `parseLine` and `load_char`. -/

theorem firstField_eq (line : String) :
    firstField line = String.mk (line.data.takeWhile (· ≠ ' ')) := by
  unfold firstField pySplit
  cases hr : pySplitCh line.data with
  | nil => exact absurd hr (pySplitCh_ne_nil _)
  | cons f fs =>
    have h := pySplitCh_headI line.data
    rw [hr] at h
    simp only [List.headI] at h
    simp [h]

theorem parseLine_isSome (line : String) :
    (parseLine line).isSome = containsSpace line := by
  unfold parseLine pySplit containsSpace
  rw [List.getElem?_map, pySplitCh_second, ← restAfterFirstSpace_isSome]
  cases hr : restAfterFirstSpace line.data <;> rfl

theorem parseLine_eq_none_iff (line : String) :
    parseLine line = none ↔ containsSpace line = false := by
  rw [← Option.not_isSome_iff_eq_none, parseLine_isSome]
  cases containsSpace line <;> simp

theorem parseLine_eq_some (line k v : String) (h : parseLine line = some (k, v)) :
    k = firstField line ∧ secondFieldAlt line = some v := by
  unfold parseLine pySplit at h
  rw [List.getElem?_map, pySplitCh_second] at h
  unfold secondFieldAlt
  cases hr : restAfterFirstSpace line.data with
  | none => rw [hr] at h; exact absurd h (by simp)
  | some r =>
    rw [hr] at h
    have h₂ : some (firstField line,
        pyStripNL (String.mk (r.takeWhile (· ≠ ' ')))) = some (k, v) := h
    have h₃ := Option.some.inj h₂
    refine ⟨(congrArg Prod.fst h₃).symm, ?_⟩
    show some (pyStripNL (String.mk (r.takeWhile (· ≠ ' ')))) = some v
    exact congrArg (fun p => some p.2) h₃

theorem foldl_loadStep_error (lines : List String) :
    lines.foldl loadStep (.error ()) = .error () := by
  induction lines with
  | nil => rfl
  | cons l ls ih => simpa [loadStep] using ih

theorem foldl_loadStep_ok_of_all (lines : List String) :
    ∀ d : Dict, (∀ l ∈ lines, containsSpace l = true) →
      lines.foldl loadStep (.ok d) = .ok (buildDict d lines) := by
  induction lines with
  | nil => intro d _; rfl
  | cons l ls ih =>
    intro d h
    have hl : containsSpace l = true := h l (by simp)
    obtain ⟨⟨k, v⟩, hp⟩ := Option.isSome_iff_exists.mp
      (by rw [parseLine_isSome]; exact hl)
    rw [List.foldl_cons,
      show loadStep (.ok d) l = .ok (dictInsert d k v) by simp [loadStep, hp],
      show buildDict d (l :: ls) = buildDict (dictInsert d k v) ls by simp [buildDict, hp]]
    exact ih _ (fun l₂ hl₂ => h l₂ (by simp [hl₂]))

theorem foldl_loadStep_error_of_bad (lines : List String) :
    ∀ d : Dict, (∃ l ∈ lines, containsSpace l = false) →
      lines.foldl loadStep (.ok d) = .error () := by
  induction lines with
  | nil => intro d h; simp at h
  | cons l ls ih =>
    intro d h
    rw [List.foldl_cons]
    by_cases hl : containsSpace l = true
    · obtain ⟨l₂, hmem, hbad⟩ := h
      rcases List.mem_cons.mp hmem with rfl | hmem₂
      · rw [hl] at hbad; cases hbad
      · obtain ⟨⟨k, v⟩, hp⟩ := Option.isSome_iff_exists.mp
          (by rw [parseLine_isSome]; exact hl)
        rw [show loadStep (.ok d) l = .ok (dictInsert d k v) by simp [loadStep, hp]]
        exact ih _ ⟨l₂, hmem₂, hbad⟩
    · have hnone : parseLine l = none :=
        (parseLine_eq_none_iff l).mpr (Bool.not_eq_true _ ▸ hl)
      rw [show loadStep (.ok d) l = .error () by simp [loadStep, hnone]]
      exact foldl_loadStep_error ls

theorem load_char_error_iff (lines : List String) :
    load_char lines = .error () ↔ ∃ l ∈ lines, containsSpace l = false := by
  constructor
  · intro h
    by_contra hno
    push_neg at hno
    have hall : ∀ l ∈ lines, containsSpace l = true :=
      fun l hl => Bool.not_eq_false _ ▸ (hno l hl)
    rw [load_char, foldl_loadStep_ok_of_all lines [] hall] at h
    cases h
  · intro h
    rw [load_char]
    exact foldl_loadStep_error_of_bad lines [] h

theorem load_char_ok_inv (lines : List String) (d : Dict)
    (h : load_char lines = .ok d) :
    (∀ l ∈ lines, containsSpace l = true) ∧ d = buildDict [] lines := by
  have hall : ∀ l ∈ lines, containsSpace l = true := by
    by_contra hno
    push_neg at hno
    obtain ⟨l, hmem, hne⟩ := hno
    have herr : load_char lines = .error () :=
      (load_char_error_iff lines).mpr ⟨l, hmem, Bool.not_eq_true _ ▸ hne⟩
    rw [herr] at h
    cases h
  refine ⟨hall, ?_⟩
  have hok := foldl_loadStep_ok_of_all lines [] hall
  rw [load_char, hok] at h
  exact (Except.ok.inj h).symm

theorem dictLookup_buildDict (lines : List String) :
    ∀ (d : Dict) (k : String), (∀ l ∈ lines, containsSpace l = true) →
      dictLookup (buildDict d lines) k =
        match lines.reverse.find? (fun l => firstField l = k) with
        | some l => (parseLine l).map Prod.snd
        | none => dictLookup d k := by
  induction lines with
  | nil => intro d k _; rfl
  | cons l ls ih =>
    intro d k h
    have hl := h l (by simp)
    obtain ⟨⟨k₁, v₁⟩, hp⟩ := Option.isSome_iff_exists.mp
      (by rw [parseLine_isSome]; exact hl)
    rw [show buildDict d (l :: ls) = buildDict (dictInsert d k₁ v₁) ls by
        simp [buildDict, hp],
      ih _ k (fun l₂ h₂ => h l₂ (by simp [h₂])),
      List.reverse_cons, List.find?_append]
    cases hf : ls.reverse.find? (fun l₂ => firstField l₂ = k) with
    | some l₂ => rfl
    | none =>
      rw [Option.none_or]
      have hk₁ : k₁ = firstField l := (parseLine_eq_some l k₁ v₁ hp).1
      by_cases hk : firstField l = k
      · rw [show List.find? (fun l₂ => decide (firstField l₂ = k)) [l] = some l by
            simp [List.find?, hk]]
        rw [dictLookup_insert, if_pos (by rw [hk₁, hk])]
        show some v₁ = (parseLine l).map Prod.snd
        rw [hp]
        rfl
      · rw [show List.find? (fun l₂ => decide (firstField l₂ = k)) [l] = none by
            simp [List.find?, hk]]
        rw [dictLookup_insert, if_neg (by rw [hk₁]; exact hk)]

/-! Helper lemmas about the keys of the mapping. -/

theorem mem_keys_iff_any (d : Dict) (k : String) :
    d.any (fun p => p.1 = k) = true ↔ k ∈ keys d := by
  simp [keys, List.any_eq_true, List.mem_map]

theorem keys_dictInsert (d : Dict) (k v : String) :
    keys (dictInsert d k v) = if k ∈ keys d then keys d else keys d ++ [k] := by
  unfold dictInsert
  by_cases hmem : d.any (fun p => p.1 = k) = true
  · rw [if_pos hmem, if_pos ((mem_keys_iff_any d k).mp hmem)]
    unfold keys
    rw [List.map_map]
    apply List.map_congr_left
    intro p _
    obtain ⟨k₁, v₁⟩ := p
    by_cases h₁ : k₁ = k
    · subst h₁
      simp [Function.comp, overwriteEntry_eq]
    · simp [Function.comp, overwriteEntry_eq, h₁]
  · rw [if_neg hmem, if_neg (fun hk => hmem ((mem_keys_iff_any d k).mpr hk))]
    unfold keys
    simp

theorem keys_dictInsert_nodup (d : Dict) (k v : String) (h : (keys d).Nodup) :
    (keys (dictInsert d k v)).Nodup := by
  rw [keys_dictInsert]
  by_cases hk : k ∈ keys d
  · rwa [if_pos hk]
  · rw [if_neg hk, List.nodup_append]
    refine ⟨h, List.nodup_singleton _, ?_⟩
    intro x hx hmem
    rw [List.mem_singleton] at hmem
    exact hk (hmem ▸ hx)

theorem keys_buildDict_nodup (lines : List String) :
    ∀ d : Dict, (keys d).Nodup → (keys (buildDict d lines)).Nodup := by
  induction lines with
  | nil => intro d h; exact h
  | cons l ls ih =>
    intro d h
    cases hp : parseLine l with
    | none => simpa [buildDict, hp] using ih d h
    | some kv =>
      obtain ⟨k, v⟩ := kv
      simpa [buildDict, hp] using ih _ (keys_dictInsert_nodup d k v h)

theorem dictLookup_isSome_iff (d : Dict) (k : String) :
    (dictLookup d k).isSome = true ↔ k ∈ keys d := by
  induction d with
  | nil => simp [dictLookup, keys]
  | cons p rest ih =>
    obtain ⟨k₁, v₁⟩ := p
    by_cases h₁ : k₁ = k
    · simp [dictLookup, h₁, keys]
    · have h₂ : ¬(k = k₁) := fun h => h₁ h.symm
      simp [dictLookup, h₁, keys, ih, h₂]

/-! Helper lemmas about `translate`. -/

theorem foldl_transFold_data (chart : Dict) (cs : List Char) :
    ∀ acc : String, (cs.foldl (transFold chart) acc).data
      = acc.data ++ (cs.map fun c => (tokenOf chart c).data).flatten := by
  induction cs with
  | nil => intro acc; simp
  | cons c rest ih =>
    intro acc
    rw [List.foldl_cons, ih]
    cases h : dictLookup chart (String.mk [c]) with
    | none => simp [transFold, tokenOf, h]
    | some code => simp [transFold, tokenOf, h, String.data_append]

theorem string_empty_data : ("" : String).data = [] := rfl

theorem translate_eq_join (s : String) (chart : Dict) :
    translate s chart = translateSpec s chart := by
  apply String.ext
  rw [translate, translateSpec, String.data_join, foldl_transFold_data, List.map_map]
  rw [string_empty_data, List.nil_append]
  rfl

theorem tokenOf_data_eq_nil_iff (chart : Dict) (c : Char) :
    (tokenOf chart c).data = [] ↔ dictLookup chart (String.mk [c]) = none := by
  cases h : dictLookup chart (String.mk [c]) with
  | none => simp [tokenOf, h]
  | some code =>
    simp only [tokenOf, h, String.data_append]
    constructor
    · intro hnil
      rw [List.append_eq_nil] at hnil
      cases hnil.2
    · intro hnone
      cases hnone

theorem translate_eq_empty_iff (s : String) (chart : Dict) :
    translate s chart = "" ↔ ∀ c ∈ s.data, dictLookup chart (String.mk [c]) = none := by
  rw [String.ext_iff, translate, foldl_transFold_data]
  simp only [string_empty_data, List.nil_append, List.flatten_eq_nil_iff]
  constructor
  · intro h c hc
    exact (tokenOf_data_eq_nil_iff chart c).mp (h _ (List.mem_map_of_mem _ hc))
  · intro h x hx
    obtain ⟨c, hc, rfl⟩ := List.mem_map.mp hx
    exact (tokenOf_data_eq_nil_iff chart c).mpr (h c hc)

theorem foldl_translateStep (cs : List Char) :
    ∀ st : String × Dict, cs.foldl translateStep st = (cs.foldl (transFold st.2) st.1, st.2) := by
  induction cs with
  | nil => intro st; rfl
  | cons c rest ih =>
    intro st
    rw [List.foldl_cons, List.foldl_cons, ih]
    cases h : dictLookup st.2 (String.mk [c]) with
    | none => simp [translateStep, transFold, h]
    | some code => simp [translateStep, transFold, h]

/-! Helper lemmas about the interactive loop. -/

theorem mainLoop_error (chart : Dict) :
    ∀ (fuel : Nat) (inputs : List String),
      (mainLoop chart fuel inputs).error = none ∨
      (mainLoop chart fuel inputs).error = some PyError.eof := by
  intro fuel
  induction fuel with
  | zero => intro inputs; right; rfl
  | succ n ih =>
    intro inputs
    rcases hg : get_input inputs with ⟨os, r⟩
    cases r with
    | none => right; simp [mainLoop, hg]
    | some tr =>
      obtain ⟨t, rest⟩ := tr
      cases rest with
      | nil => right; simp [mainLoop, hg]
      | cons a rest₂ =>
        by_cases ha : pyLower a = "n"
        · left; simp [mainLoop, hg, ha]
        · rcases ih rest₂ with h | h
          · left; simp [mainLoop, hg, ha, prependOut, h]
          · right; simp [mainLoop, hg, ha, prependOut, h]

theorem mainRun_goodbye (file : Option (List String)) (inputs : List String)
    (h : (mainRun file inputs).error = none) :
    (mainRun file inputs).outputs.getLast? = some "Goodbye." := by
  cases file with
  | none => simp [mainRun] at h
  | some lines =>
    cases hl : load_char lines with
    | error e => rw [mainRun] at h; simp [hl] at h
    | ok chart =>
      rw [mainRun] at h ⊢
      simp only [hl] at h ⊢
      cases hr : (mainLoop chart (inputs.length + 1) inputs).error with
      | some e => simp [hr] at h
      | none =>
        simp only [hr]
        show ("Welcome to the Morse code converter.\n" ::
          ((mainLoop chart (inputs.length + 1) inputs).outputs ++ ["Goodbye."])).getLast? =
            some "Goodbye."
        rw [← List.cons_append, List.getLast?_concat]

/-! The claims. -/

/-- C1: for every input string and code table, the translation is the
left-to-right concatenation, over the characters of the input, of the
code of each character that is a key of the table followed by exactly
one space, with characters not in the table contributing nothing; the
result is empty exactly when no character of the input is a key. -/
theorem translate_per_character (s : String) (chart : Dict) :
    translate s chart = translateSpec s chart ∧
    (translate s chart = "" ↔ ∀ c ∈ s.data, dictLookup chart (String.mk [c]) = none) :=
  ⟨translate_eq_join s chart, translate_eq_empty_iff s chart⟩

/-- C2 counterexample: on the line `"a b c\n"` the loader stores `"b"`
under `"a"`, while the remainder of the line after the first space,
minus the trailing newline, is `"b c"`.  The loader keeps only the
second space-delimited field, not the whole remainder. -/
theorem load_char_truncates_at_second_space :
    load_char ["a b c\n"] = .ok [("a", "b")] ∧
    claimedValue "a b c\n" = some "b c" ∧
    ¬ (("b" : String) = "b c") :=
  ⟨rfl, rfl, by decide⟩

/-- C2 (amended): for every line of a successfully loaded file that is
the last line carrying its first field, the value stored under that
first field is the characters strictly between the first space and the
following space or end of line, with newline characters stripped. -/
theorem load_char_value_is_second_field (lines : List String) (d : Dict)
    (h : load_char lines = .ok d) (l : String) (hl : l ∈ lines)
    (hlast : lines.reverse.find? (fun l₂ => firstField l₂ = firstField l) = some l) :
    dictLookup d (firstField l) = secondFieldAlt l := by
  obtain ⟨hall, rfl⟩ := load_char_ok_inv lines d h
  rw [dictLookup_buildDict lines [] (firstField l) hall, hlast]
  show (parseLine l).map Prod.snd = secondFieldAlt l
  obtain ⟨⟨k, v⟩, hp⟩ := Option.isSome_iff_exists.mp
    (by rw [parseLine_isSome]; exact hall l hl)
  obtain ⟨_, hv⟩ := parseLine_eq_some l k v hp
  rw [hp, hv]
  rfl

/-- C2 witness: applying the amended statement to the one-line file
`"a .- x\n"`, whose stored value is `".-"`. -/
theorem load_char_value_is_second_field_witness :
    dictLookup [("a", ".-")] (firstField "a .- x\n") = secondFieldAlt "a .- x\n" :=
  load_char_value_is_second_field ["a .- x\n"] [("a", ".-")] rfl "a .- x\n"
    (by decide) rfl

/-- C3 counterexample: a blank line does not contribute nothing, it
aborts loading: the two-line file with a well-formed first line and a
blank second line loads to an error, not to a one-entry mapping. -/
theorem load_char_blank_line_aborts :
    load_char ["a .-\n", "\n"] = .error () ∧
    ("\n" : String) ∈ ["a .-\n", "\n"] ∧ containsSpace "\n" = false :=
  ⟨rfl, by decide, rfl⟩

/-- C3 (amended): for every resource file in which every line contains
at least one space, the loader succeeds and the mapping has one entry
per distinct first field of the lines (its keys are pairwise distinct
and are exactly the first fields); a blank line instead raises an
uncaught IndexError and prevents loading. -/
theorem load_char_entry_per_line (lines : List String)
    (h : ∀ l ∈ lines, containsSpace l = true) :
    ∃ d, load_char lines = .ok d ∧ (keys d).Nodup ∧
      (∀ k, k ∈ keys d ↔ k ∈ lines.map firstField) := by
  refine ⟨buildDict [] lines, foldl_loadStep_ok_of_all lines [] h,
    keys_buildDict_nodup lines [] (by simp [keys]), fun k => ?_⟩
  rw [← dictLookup_isSome_iff, dictLookup_buildDict lines [] k h]
  cases hf : lines.reverse.find? (fun l₂ => firstField l₂ = k) with
  | some l =>
    have hmem : l ∈ lines := by
      have := List.mem_of_find?_eq_some hf
      simpa using this
    have hff : firstField l = k := by
      have := List.find?_some hf
      simpa using this
    have hp : (parseLine l).isSome = true := by
      rw [parseLine_isSome]; exact h l hmem
    constructor
    · intro _
      exact List.mem_map.mpr ⟨l, hmem, hff⟩
    · intro _
      show ((parseLine l).map Prod.snd).isSome = true
      obtain ⟨kv, hkv⟩ := Option.isSome_iff_exists.mp hp
      rw [hkv]
      rfl
  | none =>
    constructor
    · intro hsome
      simp [dictLookup] at hsome
    · intro hk
      obtain ⟨l, hmem, hfl⟩ := List.mem_map.mp hk
      have hne : lines.reverse.find? (fun l₂ => firstField l₂ = k) ≠ none := by
        rw [Ne, List.find?_eq_none]
        push_neg
        exact ⟨l, by simpa using hmem, by simp [hfl]⟩
      exact absurd hf hne

/-- C3 witness: the amended statement applied to a two-line file with
distinct keys. -/
theorem load_char_entry_per_line_witness :
    ∃ d, load_char ["a .-\n", "b -...\n"] = .ok d ∧ (keys d).Nodup ∧
      (∀ k, k ∈ keys d ↔ k ∈ ["a .-\n", "b -...\n"].map firstField) :=
  load_char_entry_per_line ["a .-\n", "b -...\n"] (by decide)

/-- C4: for every successfully loaded file, the value the mapping
assigns to a key is the parsed value of the last line whose first field
is that key (last-line-wins), and `none` when no line carries it. -/
theorem load_char_last_wins (lines : List String) (d : Dict)
    (h : load_char lines = .ok d) (k : String) :
    dictLookup d k =
      match lines.reverse.find? (fun l => firstField l = k) with
      | some l => (parseLine l).map Prod.snd
      | none => none := by
  obtain ⟨hall, rfl⟩ := load_char_ok_inv lines d h
  rw [dictLookup_buildDict lines [] k hall]
  rfl

/-- C4 witness: loading a file where the key `"a"` occurs on two lines
stores the value of the second line. -/
theorem load_char_last_wins_witness :
    dictLookup [("a", "-")] "a" =
      match (["a .-\n", "a -\n"].reverse.find? (fun l => firstField l = "a")) with
      | some l => (parseLine l).map Prod.snd
      | none => none :=
  load_char_last_wins ["a .-\n", "a -\n"] [("a", "-")] rfl "a"

/-- C5 counterexample: a missing resource file is not the only fatal
condition: a readable file whose line has no space is fatal too
(an IndexError at startup, with no interaction). -/
theorem malformed_resource_also_fatal :
    mainRun (some ["ab\n"]) ["hi", "n"] = ⟨[], some PyError.indexErr⟩ ∧
    ¬ (PyError.indexErr = PyError.resource) :=
  ⟨rfl, by decide⟩

/-- C5 (amended): when the resource file cannot be read, the error
propagates uncaught at startup: nothing is printed, no input is
consumed, the run ends with the resource error.  Besides this error and
the IndexError raised while loading a malformed file, no fatal
condition exists: on a well-formed file the run either ends normally or
merely exhausts the modelled list of entries. -/
theorem resource_error_startup (inputs : List String) :
    mainRun none inputs = ⟨[], some PyError.resource⟩ ∧
    (∀ lines : List String, (∀ l ∈ lines, containsSpace l = true) →
      (mainRun (some lines) inputs).error = none ∨
      (mainRun (some lines) inputs).error = some PyError.eof) := by
  refine ⟨rfl, fun lines hall => ?_⟩
  have hok : load_char lines = .ok (buildDict [] lines) :=
    foldl_loadStep_ok_of_all lines [] hall
  rcases mainLoop_error (buildDict [] lines) (inputs.length + 1) inputs with hml | hml
  · left; simp [mainRun, hok, hml]
  · right; simp [mainRun, hok, hml]

/-- C5 witness: the amended statement at a concrete run. -/
theorem resource_error_startup_witness :
    mainRun none ["ab", "n"] = ⟨[], some PyError.resource⟩ ∧
    ((mainRun (some ["a .-\n"]) ["ab", "n"]).error = none ∨
      (mainRun (some ["a .-\n"]) ["ab", "n"]).error = some PyError.eof) :=
  ⟨(resource_error_startup ["ab", "n"]).1,
    (resource_error_startup ["ab", "n"]).2 ["a .-\n"] (by decide)⟩

/-- C6: with the table mapping a to .- and b to -..., translating
"ab" yields ".- -... " with a trailing space, and translating "a1b"
yields the same string, the unmapped 1 contributing nothing. -/
theorem translate_examples :
    translate "ab" [("a", ".-"), ("b", "-...")] = ".- -... " ∧
    translate "a1b" [("a", ".-"), ("b", "-...")] = ".- -... " :=
  ⟨rfl, rfl⟩

/-- C7: at the continue prompt the loop terminates exactly when the
lowercased answer is the string n; any other answer loops back to a
fresh input request; and a normally terminated run prints the farewell
line last. -/
theorem continue_decision (chart : Dict) (fuel : Nat) (t a : String)
    (rest : List String) (ht : ¬ pyLower t = "") :
    (pyLower a = "n" →
      mainLoop chart (fuel + 1) (t :: a :: rest) =
        ⟨iterOut ["Please enter the text to convert:"] (pyLower t) chart, none⟩) ∧
    (¬ pyLower a = "n" →
      mainLoop chart (fuel + 1) (t :: a :: rest) =
        prependOut (iterOut ["Please enter the text to convert:"] (pyLower t) chart)
          (mainLoop chart fuel rest)) ∧
    (∀ (file : Option (List String)) (inputs : List String),
      (mainRun file inputs).error = none →
      (mainRun file inputs).outputs.getLast? = some "Goodbye.") := by
  refine ⟨fun hn => ?_, fun hn => ?_, fun file inputs h => mainRun_goodbye file inputs h⟩
  · simp [mainLoop, get_input, ht, hn]
  · simp [mainLoop, get_input, ht, hn]

/-- C7 witness: with input text ab and answer n the loop terminates. -/
theorem continue_decision_witness :
    mainLoop [] (0 + 1) ["ab", "n"] =
      ⟨iterOut ["Please enter the text to convert:"] (pyLower "ab") [], none⟩ :=
  (continue_decision [] 0 "ab" "n" [] (by decide)).1 rfl

/-- C8: the input-gathering operation re-prompts with a guidance line on
an empty entry, accepts a non-empty entry lowercased, and whatever it
returns is non-empty and is the lowercasing of one of the entries. -/
theorem get_input_contract :
    (∀ (e : String) (inputs : List String), pyLower e = "" →
      get_input (e :: inputs) =
        ("Please enter the text to convert:" :: "Please enter some text." ::
          (get_input inputs).1, (get_input inputs).2)) ∧
    (∀ (i : String) (inputs : List String), ¬ pyLower i = "" →
      get_input (i :: inputs) =
        (["Please enter the text to convert:"], some (pyLower i, inputs))) ∧
    (∀ (inputs os : List String) (t : String) (rest : List String),
      get_input inputs = (os, some (t, rest)) →
      ¬ t = "" ∧ ∃ i ∈ inputs, t = pyLower i) := by
  refine ⟨fun e inputs he => ?_, fun i inputs hi => ?_, fun inputs => ?_⟩
  · rcases hg : get_input inputs with ⟨os, r⟩
    simp [get_input, he, hg]
  · simp [get_input, hi]
  · induction inputs with
    | nil =>
      intro os t rest h
      simp [get_input] at h
    | cons i rest₂ ih =>
      intro os t rest h
      by_cases hi : pyLower i = ""
      · rcases hg : get_input rest₂ with ⟨os₂, r₂⟩
        rw [show get_input (i :: rest₂) =
            ("Please enter the text to convert:" :: "Please enter some text." :: os₂, r₂) by
          simp [get_input, hi, hg]] at h
        have hr₂ : r₂ = some (t, rest) := congrArg Prod.snd h
        obtain ⟨ht, i₂, hm, hlow⟩ := ih os₂ t rest (by rw [hg, hr₂])
        exact ⟨ht, i₂, List.mem_cons_of_mem i hm, hlow⟩
      · rw [show get_input (i :: rest₂) =
            (["Please enter the text to convert:"], some (pyLower i, rest₂)) by
          simp [get_input, hi]] at h
        have h₂ := congrArg Prod.snd h
        have h₃ : pyLower i = t := congrArg Prod.fst (Option.some.inj h₂)
        refine ⟨fun ht => hi (by rw [h₃, ht]), i, List.mem_cons_self i rest₂, h₃.symm⟩

/-- C8 witness: an empty entry re-prompts; the entry AB is accepted and
returned lowercased. -/
theorem get_input_contract_witness :
    get_input ["", "AB"] =
      ("Please enter the text to convert:" :: "Please enter some text." ::
        (get_input ["AB"]).1, (get_input ["AB"]).2) ∧
    get_input ["AB"] = (["Please enter the text to convert:"], some (pyLower "AB", [])) :=
  ⟨get_input_contract.1 "" ["AB"] rfl, get_input_contract.2.1 "AB" [] (by decide)⟩

/-- C9: translation is total and deterministic (it denotes a unique
result for every input and table) and the loop body threads the table
through unchanged: running the fold with the table in the state leaves
the table exactly as it was and computes the same string. -/
theorem translate_total_pure (s : String) (chart : Dict) :
    (∃! r : String, translate s chart = r) ∧
    (s.data.foldl translateStep ("", chart)).2 = chart ∧
    (s.data.foldl translateStep ("", chart)).1 = translate s chart := by
  refine ⟨⟨translate s chart, rfl, fun r h => h.symm⟩, ?_, ?_⟩
  · rw [foldl_translateStep]
  · rw [foldl_translateStep]
    rfl

/-- C10: loading fails exactly when some line has no space character
(including a blank line), and the failure is an uncaught IndexError:
the whole program run aborts with it, printing nothing. -/
theorem load_char_no_space_index_error (lines : List String) :
    (load_char lines = .error () ↔ ∃ l ∈ lines, containsSpace l = false) ∧
    (∀ inputs : List String, load_char lines = .error () →
      mainRun (some lines) inputs = ⟨[], some PyError.indexErr⟩) := by
  refine ⟨load_char_error_iff lines, fun inputs herr => ?_⟩
  simp [mainRun, herr]

/-- C10 witness: a file consisting of one blank line fails to load and
aborts the run. -/
theorem load_char_no_space_index_error_witness :
    (load_char ["\n"] = .error () ↔ ∃ l ∈ ["\n"], containsSpace l = false) ∧
    mainRun (some ["\n"]) ["ab", "n"] = ⟨[], some PyError.indexErr⟩ :=
  ⟨(load_char_no_space_index_error ["\n"]).1,
    (load_char_no_space_index_error ["\n"]).2 ["ab", "n"] rfl⟩

end Morse
